import Mathlib

/-!
Verification of the typed-argparse core: a shallow embedding of the
runtime type-validation layer (`type_utils.py`), the record materializer
(`typed_args.py`), argument metadata (`arg.py`), choice containers
(`choices.py`), and the declarative sub-command parser (`parser.py`).

Python runtime values are modelled by the inductive type `PVal`; declared
field annotations are modelled by the tagged `TypeShape` (the shapes that
the type-annotation wrapper distinguishes via its `get_underlying_if_*`
and `get_allowed_values_if_*` probes).  String->value converter functions
(the `type=` callables handed to argparse) are outside the pure value
model, except for the enum converter which is modelled explicitly.
-/

namespace TypedArgparse

/-- A single-quote character, used when reproducing Python error-message
formatting. -/
def sq : String := String.singleton (Char.ofNat 39)

/-- Python runtime values.  `obj tyName mro` stands for an instance of an
arbitrary user-defined class whose method resolution order is `mro`;
`enumMember e m v` is the enum member `e.m` with underlying value `v`. -/
inductive PVal where
  | none
  | bool (b : Bool)
  | int (n : Int)
  | str (s : String)
  | list (xs : List PVal)
  | tuple (xs : List PVal)
  | enumMember (enumName : String) (memberName : String) (val : PVal)
  | obj (tyName : String) (mro : List String)

mutual
/-- Python `==` on the modelled values: structural comparison for values
of the same kind, `False` across kinds (the cross-kind numeric equalities
of Python, such as `True == 1`, are not modelled; no claim depends on
them). -/
def PVal.beq : PVal → PVal → Bool
  | .none, .none => true
  | .bool a, .bool b => a == b
  | .int a, .int b => a == b
  | .str a, .str b => a == b
  | .list a, .list b => PVal.beqList a b
  | .tuple a, .tuple b => PVal.beqList a b
  | .enumMember e1 m1 v1, .enumMember e2 m2 v2 => e1 == e2 && m1 == m2 && PVal.beq v1 v2
  | .obj n1 r1, .obj n2 r2 => n1 == n2 && r1 == r2
  | _, _ => false
termination_by a _ => sizeOf a

/-- Elementwise Python `==` of two lists. -/
def PVal.beqList : List PVal → List PVal → Bool
  | [], [] => true
  | x :: xs, y :: ys => PVal.beq x y && PVal.beqList xs ys
  | _, _ => false
termination_by xs _ => sizeOf xs
end

/-- A Python class, as far as `isinstance` checks are concerned: its name
and its method resolution order (list of class names, starting with the
class itself). -/
structure PyType where
  name : String
  mro : List String
deriving Repr, DecidableEq

/-- `type(value)` for the modelled values. -/
def typeOf : PVal → PyType
  | .none => ⟨"NoneType", ["NoneType", "object"]⟩
  | .bool _ => ⟨"bool", ["bool", "int", "object"]⟩
  | .int _ => ⟨"int", ["int", "object"]⟩
  | .str _ => ⟨"str", ["str", "object"]⟩
  | .list _ => ⟨"list", ["list", "object"]⟩
  | .tuple _ => ⟨"tuple", ["tuple", "object"]⟩
  | .enumMember e _ _ => ⟨e, [e, "Enum", "object"]⟩
  | .obj n mro => ⟨n, mro⟩

/-- `isinstance(v, t)`: the declared class appears in the MRO of the
value's runtime class. -/
def isinstance (v : PVal) (t : PyType) : Bool :=
  (typeOf v).mro.contains t.name

/-- `typename` from type_utils.py: the quoted `__name__` of a type. -/
def typename (t : PyType) : String := sq ++ t.name ++ sq

/-- `typename_of` from type_utils.py: `typename(type(value))`. -/
def typenameOf (v : PVal) : String := typename (typeOf v)

/-- Python tuple rendering of a list of already-rendered elements (a
one-element tuple carries a trailing comma). -/
def tupleReprOfStrings (rs : List String) : String :=
  match rs with
  | [r] => "(" ++ r ++ ",)"
  | _ => "(" ++ String.intercalate ", " rs ++ ")"

mutual
/-- Python `repr` for the modelled values (enum members render as
`<E.member: value>`, matching the enum `__repr__`). -/
def pyRepr : PVal → String
  | .none => "None"
  | .bool b => if b then "True" else "False"
  | .int n => toString n
  | .str s => sq ++ s ++ sq
  | .list xs => "[" ++ String.intercalate ", " (pyReprList xs) ++ "]"
  | .tuple xs => tupleReprOfStrings (pyReprList xs)
  | .enumMember e m v => "<" ++ e ++ "." ++ m ++ ": " ++ pyRepr v ++ ">"
  | .obj n _ => "<" ++ n ++ " object>"
termination_by v => sizeOf v

/-- `repr` of every element of a list. -/
def pyReprList : List PVal → List String
  | [] => []
  | x :: xs => pyRepr x :: pyReprList xs
termination_by xs => sizeOf xs
end

/-- Python `str` (differs from `repr` on strings, which render bare, and on
enum members, which render as `E.member`). -/
def pyStr : PVal → String
  | .str s => s
  | .enumMember e m _ => e ++ "." ++ m
  | v => pyRepr v

/-- Python `str(tuple)` as used by the f-string interpolation of
`allowed_values` in validation error messages. -/
def pyTupleRepr (xs : List PVal) : String :=
  tupleReprOfStrings (pyReprList xs)

/-- The shapes of type annotations distinguished by the validator in
type_utils.py: `Optional[T]`, non-optional `Union[...]`, `List[T]`,
`Literal[...]`, `Enum` subclasses, and plain (scalar) classes.  An enum
type is its name plus the ordered list of members
`(member_name, underlying_value)`. -/
inductive TypeShape where
  | scalar (t : PyType)
  | optional (inner : TypeShape)
  | union (members : List TypeShape)
  | list (inner : TypeShape)
  | literal (allowed : List PVal)
  | enum (enumName : String) (members : List (String × PVal))

/-- `is_bool` of the type-annotation wrapper: the raw annotation is the
class `bool`. -/
def TypeShape.isBool : TypeShape → Bool
  | .scalar t => t.name == "bool"
  | _ => false

/-- `get_underlying_if_optional`. -/
def TypeShape.underlyingIfOptional : TypeShape → Option TypeShape
  | .optional inner => Option.some inner
  | _ => Option.none

/-- `get_underlying_if_list`. -/
def TypeShape.underlyingIfList : TypeShape → Option TypeShape
  | .list inner => Option.some inner
  | _ => Option.none

/-- The enum member `(name, value)` that a raw value matches: the source
loop checks `value == allowed_value.value` and `value is allowed_value`
(member identity) for each member in declared order. -/
def enumFirstMatch (eName : String) (members : List (String × PVal)) (value : PVal) :
    Option (String × PVal) :=
  members.find? (fun m => PVal.beq value m.2 || PVal.beq value (PVal.enumMember eName m.1 m.2))

/-- The enum-validation failure message of the validator. -/
def enumErrMsg (eName : String) (members : List (String × PVal)) (value : PVal) : String :=
  "value " ++ pyStr value ++ " does not match any allowed enum value in " ++
    pyTupleRepr (members.map (fun m => PVal.enumMember eName m.1 m.2))

/-- The literal-validation failure message of the validator. -/
def literalErrMsg (allowed : List PVal) (value : PVal) : String :=
  "value " ++ pyStr value ++ " does not match any allowed literal value in " ++
    pyTupleRepr allowed

/-- The scalar (nominal `isinstance`) failure message of the validator. -/
def scalarErrMsg (t : PyType) (value : PVal) : String :=
  "value is of type " ++ typenameOf value ++ ", expected " ++ typename t

mutual
/-- The `validate` method of the type-annotation wrapper (type_utils.py):
returns the converted value and an optional error message.  Branch order
follows the source: optionals, unions, lists, literals, enums, then the
scalar `isinstance` check.  (The NewType unwrapping branch and the
defensive branch for raw annotations that are not a `type` are not
representable in the tagged shape and are omitted.) -/
def validate : TypeShape → PVal → PVal × Option String
  | .optional inner, value =>
    match value with
    | PVal.none => (PVal.none, Option.none)
    | v => validate inner v
  | .union members, value => validateUnion members value []
  | .list inner, value =>
    match value with
    | PVal.none => (PVal.list [], Option.none)
    | PVal.list xs => validateListElems inner xs [] (PVal.list xs)
    | v =>
      (v, Option.some ("value is of type " ++ typenameOf v ++ ", expected " ++
        sq ++ "list" ++ sq))
  | .literal allowed, value =>
    if allowed.any (fun a => PVal.beq value a) then (value, Option.none)
    else (value, Option.some (literalErrMsg allowed value))
  | .enum eName members, value =>
    match enumFirstMatch eName members value with
    | Option.some m => (PVal.enumMember eName m.1 m.2, Option.none)
    | Option.none => (value, Option.some (enumErrMsg eName members value))
  | .scalar t, value =>
    if isinstance value t then (value, Option.none)
    else (value, Option.some (scalarErrMsg t value))
termination_by t _ => (sizeOf t, 0)

/-- The union loop of `validate`: try each member type in declared order,
return the first success, otherwise concatenate all failure reasons. -/
def validateUnion : List TypeShape → PVal → List String → PVal × Option String
  | [], value, errors =>
    (value, Option.some ("value " ++ pyStr value ++ " did not match any type of union:\n - " ++
      String.intercalate "\n - " errors.reverse))
  | t :: ts, value, errors =>
    match validate t value with
    | (newValue, Option.none) => (newValue, Option.none)
    | (_, Option.some e) => validateUnion ts value (e :: errors)
termination_by ts _ _ => (sizeOf ts, 0)

/-- The element loop of `validate`'s list branch: validate every element,
failing on the first element error. -/
def validateListElems : TypeShape → List PVal → List PVal → PVal → PVal × Option String
  | _, [], acc, _ => (PVal.list acc.reverse, Option.none)
  | inner, x :: xs, acc, orig =>
    match validate inner x with
    | (newValue, Option.none) => validateListElems inner xs (newValue :: acc) orig
    | (_, Option.some e) =>
      (orig, Option.some ("not all elements of the list have proper type (" ++ e ++ ")"))
termination_by inner xs _ _ => (sizeOf inner, sizeOf xs)
end



/-- Python `repr` of a list of strings, e.g. `['a', 'b']`. -/
def pyStrListRepr (xs : List String) : String :=
  "[" ++ String.intercalate ", " (xs.map (fun s => sq ++ s ++ sq)) ++ "]"

/-- Case and separator normalization used by `_fuzzy_compare`:
`a.lower().replace("-", "_")` (character-wise, since the pattern is a
single character). -/
def pyNormalize (s : String) : String :=
  String.mk ((s.data.map Char.toLower).map (fun c => if c = Char.ofNat 45 then Char.ofNat 95 else c))

/-- `_fuzzy_compare` (type_utils.py): normalized comparison when both
sides are strings, plain Python `==` otherwise. -/
def fuzzyCompare : PVal → PVal → Bool
  | .str a, .str b => pyNormalize a == pyNormalize b
  | a, b => PVal.beq a b

/-- `type(allowed_value)(x)`: calling the class of an atomic value on a
raw string, as the literal/enum converters do inside their `try` blocks;
`Option.none` models the caught `ValueError`/`TypeError`. -/
def pyConstructFromStr (template : PVal) (x : String) : Option PVal :=
  match template with
  | .int _ => (x.toInt?).map PVal.int
  | .str _ => Option.some (PVal.str x)
  | .bool _ => Option.some (PVal.bool (!(x == "")))
  | _ => Option.none

/-- The member that `_create_enum_type_converter`'s loop selects for a raw
CLI string: fuzzy match against the member name, then against the member
value, then against the value rebuilt from the string by the value's own
class. -/
def enumConverterFirstMatch (members : List (String × PVal)) (x : String) :
    Option (String × PVal) :=
  members.find? (fun m =>
    fuzzyCompare (PVal.str x) (PVal.str m.1) ||
    fuzzyCompare (PVal.str x) m.2 ||
    (match pyConstructFromStr m.2 x with
     | Option.some xConverted => fuzzyCompare xConverted m.2
     | Option.none => false))

/-- `_create_enum_type_converter` (type_utils.py): the `type=` callable
registered with argparse for enum fields.  Returns the matching enum
member, or the raw string unchanged when nothing matches (the source
relies on the `choices` mechanism to reject it later). -/
def enumTypeConverter (eName : String) (members : List (String × PVal)) (x : String) : PVal :=
  match enumConverterFirstMatch members x with
  | Option.some m => PVal.enumMember eName m.1 m.2
  | Option.none => PVal.str x

/-- `arg_name.replace("_", "-")` (character-wise, since the pattern is a
single character). -/
def hyphenated (s : String) : String :=
  String.mk (s.data.map (fun c => if c = Char.ofNat 95 then Char.ofNat 45 else c))

/-- `list.__contains__`: plain Python membership of an element. -/
def listContains (c : List PVal) (item : PVal) : Bool :=
  c.any (fun e => PVal.beq e item)

/-- `Choices.__contains__` (choices.py): a list or tuple is "contained"
iff each of its elements is contained; any other value is checked as a
single element. -/
def choicesContains (c : List PVal) (itemOrItems : PVal) : Bool :=
  let items : List PVal :=
    match itemOrItems with
    | PVal.list xs => xs
    | PVal.tuple xs => xs
    | v => [v]
  items.all (fun i => listContains c i)

/-- The `nargs` values an `Arg` can declare (arg.py): `"*"`, `"+"`, or an
exact count. -/
inductive NArgsVal where
  | star
  | plus
  | exact (n : Nat)
deriving Repr, DecidableEq

/-- The `Arg` named tuple (arg.py).  `default` uses `PVal.none` as the
"not provided" sentinel, exactly as the Python `Optional[object]` field
does; `dynamicDefault`/`dynamicChoices` model the thunks by the value a
call would produce.  The `type` converter field (a `str -> object`
callable) is outside the pure value model and omitted. -/
structure Arg where
  flags : List String
  positional : Bool
  default : PVal
  dynamicDefault : Option PVal
  dynamicChoices : Option (List PVal)
  nargs : Option NArgsVal
  help : Option String
  autoDefaultHelp : Bool

/-- `Arg.has_default`: a default exists iff the literal default is not
`None` or a dynamic default is present. -/
def Arg.hasDefault (a : Arg) : Bool :=
  (!(PVal.beq a.default PVal.none)) || a.dynamicDefault.isSome

/-- `Arg.nargs_with_default`: the declared `nargs` or `"*"`. -/
def Arg.nargsWithDefault (a : Arg) : NArgsVal :=
  a.nargs.getD NArgsVal.star

/-- `Arg.resolve_default` viewed at the level of value content: the two
assertions of the source become errors, and `copy.deepcopy` returns a
value with identical content (the aliasing consequences of the deep copy
are modelled separately by the heap semantics below). -/
def Arg.resolveDefault (a : Arg) : Except String PVal :=
  let hasDef := !(PVal.beq a.default PVal.none)
  let hasDynamicDef := a.dynamicDefault.isSome
  if !(hasDef || hasDynamicDef) then
    Except.error "Argument has no default/dynamic_default."
  else if hasDef && hasDynamicDef then
    Except.error "default and dynamic_default are mutually exclusive. Please specify either."
  else if hasDef then
    Except.ok a.default
  else
    Except.ok (a.dynamicDefault.getD PVal.none)

/-- The `arg(...)` helper (arg.py) with every keyword left at its default:
no flags, not positional, no defaults, no choices, no nargs, no help. -/
def mkArgEmpty : Arg :=
  ⟨[], false, PVal.none, Option.none, Option.none, Option.none, Option.none, true⟩

/-- The `nargs` values that can end up in the argparse kwargs: the `Arg`
values plus the `"?"` used for positionals with defaults. -/
inductive NargsKw where
  | star
  | plus
  | exact (n : Nat)
  | questionMark
deriving Repr, DecidableEq

/-- Conversion of a declared `nargs` into the kwargs form. -/
def NargsKw.ofNArgs : NArgsVal → NargsKw
  | NArgsVal.star => NargsKw.star
  | NArgsVal.plus => NargsKw.plus
  | NArgsVal.exact n => NargsKw.exact n

/-- The keyword arguments that `_build_add_argument_args` (parser.py)
hands to `argparse.add_argument`, restricted to the value-level fields:
presence of `required=True`, the boolean-switch `action`, the resolved
`default`, the `nargs` value, the `choices` container, and the `dest`.
(The `help` text formatting and the `type` converter callable carry no
value-level content and are omitted.) -/
structure AddArgKwargs where
  required : Bool
  action : Option String
  defaultKw : Option PVal
  nargsKw : Option NargsKw
  choices : Option (List PVal)
  dest : Option String

/-- `_build_add_argument_args` (parser.py): per-field flag synthesis.
Follows the source step by step: unwrap one `Optional` layer, unwrap one
`List` layer (with the `nargs='+'` sanity check), compute `is_required`,
handle boolean switches via actions, resolve defaults (positionals with
defaults get `nargs='?'`), derive `choices` from literal/enum/dynamic
choices, override `nargs` for collections, and synthesize the flag
spellings from the hyphenated python name. -/
def buildAddArgumentArgs (pythonArgName : String) (shape : TypeShape) (a : Arg) :
    Except String (List String × AddArgKwargs) := do
  let (isOptional, shape1) :=
    match shape with
    | TypeShape.optional inner => (true, inner)
    | s => (false, s)
  let listInner := shape1.underlyingIfList
  if listInner.isSome && (a.nargsWithDefault == NArgsVal.plus) && isOptional then
    Except.error ("An argument with nargs=" ++ sq ++ "+" ++ sq ++ " must not be optional")
  else do
  let (isCollection, shape2) :=
    match listInner with
    | Option.some inner => (true, inner)
    | Option.none => (false, shape1)
  let isRequired : Bool :=
    if shape2.isBool then false
    else !(isOptional || a.hasDefault)
  let requiredKw := isRequired && !a.positional
  let (actionKw, defaultKw, nargsFromDefault, choicesKw) ←
    if shape2.isBool then do
      if a.hasDefault then do
        let defaultValue ← a.resolveDefault
        if PVal.beq defaultValue (PVal.bool true) then
          pure (Option.some "store_false", Option.none, Option.none, Option.none)
        else if PVal.beq defaultValue (PVal.bool false) then
          pure (Option.some "store_true", Option.none, Option.none, Option.none)
        else
          Except.error ("Invalid default for bool " ++ sq ++ pyStr defaultValue ++ sq)
      else
        pure (Option.some "store_true", Option.none, Option.none, Option.none)
    else do
      let (defaultKw, nargsFromDefault) ←
        if a.hasDefault then do
          let defaultValue ← a.resolveDefault
          pure (Option.some defaultValue,
            if a.positional then Option.some NargsKw.questionMark else Option.none)
        else
          pure (Option.none, Option.none)
      let choicesFromShape : Option (List PVal) :=
        match shape2 with
        | TypeShape.literal allowed => Option.some allowed
        | TypeShape.enum eName members =>
          Option.some (members.map (fun m => PVal.enumMember eName m.1 m.2))
        | _ => Option.none
      let choicesKw :=
        match a.dynamicChoices with
        | Option.some cs => Option.some cs
        | Option.none => choicesFromShape
      pure (Option.none, defaultKw, nargsFromDefault, choicesKw)
  let nargsKw :=
    if isCollection then Option.some (NargsKw.ofNArgs a.nargsWithDefault)
    else nargsFromDefault
  let cliArgName := hyphenated pythonArgName
  if a.positional then
    pure ([cliArgName], ⟨requiredKw, actionKw, defaultKw, nargsKw, choicesKw, Option.none⟩)
  else if a.flags.length > 0 then
    if !(a.flags.all (fun flag => flag.startsWith "-")) then
      Except.error ("Invalid flags: " ++ pyStrListRepr a.flags ++
        ". All flags should start with " ++ sq ++ "-" ++ sq ++ ". " ++
        "A positional argument can be created by setting positional=True.")
    else
      let nameOrFlags :=
        a.flags ++
          (if a.flags.all (fun flag => flag.length == 2) && pythonArgName.length > 1 then
            ["--" ++ cliArgName]
          else [])
      pure (nameOrFlags,
        ⟨requiredKw, actionKw, defaultKw, nargsKw, choicesKw, Option.some pythonArgName⟩)
  else
    pure (["--" ++ cliArgName],
      ⟨requiredKw, actionKw, defaultKw, nargsKw, choicesKw, Option.some pythonArgName⟩)


/-! ### Explicit-heap view of `Arg.resolve_default`

`copy.deepcopy(self.default)` matters only through aliasing: each call
returns a fresh list object.  We model the heap of mutable list objects as
a list of cells (each cell the contents of one Python list), references as
cell indices, and the deep copy of a list default as the allocation of a
fresh cell with equal contents. -/

/-- A heap of Python list objects: cell `r` holds the elements of one
list. -/
abbrev ListHeap := List (List PVal)

/-- Dereference a list object. -/
def heapGet (h : ListHeap) (r : Nat) : List PVal :=
  List.getD h r []

/-- `Arg.resolve_default` for an `Arg` whose literal default is the list
object at `r`: `copy.deepcopy` allocates a fresh cell carrying the same
contents and returns a reference to it. -/
def resolveDefaultHeap (h : ListHeap) (r : Nat) : ListHeap × Nat :=
  (h ++ [heapGet h r], h.length)

/-- In-place mutation of the list object at `r` (e.g. `.append(...)`). -/
def mutateList (h : ListHeap) (r : Nat) (f : List PVal → List PVal) : ListHeap :=
  List.set h r (f (heapGet h r))

/-! ### The record materializer (typed_args.py) -/

/-- `getattr`/`hasattr` on an argparse `Namespace`, modelled as an
association list of attributes (attribute names are unique, so first
match is the attribute). -/
def nsLookup : List (String × PVal) → String → Option PVal
  | [], _ => Option.none
  | e :: rest, n => if e.1 == n then Option.some e.2 else nsLookup rest n

/-- The entries of `TypedArgs.__dict__`: the reserved names a field must
not collide with. -/
def typedArgsClassDict : List String :=
  ["__module__", "__qualname__", "__doc__", "__dict__", "__weakref__", "__hash__",
   "__init__", "from_argparse", "__repr__", "__str__", "__eq__", "__ne__",
   "get_choices_from"]

/-- The per-field loop of `_argparse_namespace_to_dict` (typed_args.py):
walks the declared annotations in order, validating present values
(looking the name up directly and then under its hyphenated spelling) and
collecting the names of absent fields.  Returns the validated
keyword-argument list and the missing names, both in declared order. -/
def collectFields (ns : List (String × PVal)) :
    List (String × TypeShape) → Except String (List (String × PVal) × List String)
  | [] => Except.ok ([], [])
  | (n, shape) :: rest =>
    if typedArgsClassDict.contains n then
      Except.error ("A type must not have an argument called " ++ sq ++ n ++ sq)
    else
      match nsLookup ns n with
      | Option.some value =>
        match validate shape value with
        | (value2, Option.none) => do
          let (kwargs, missing) ← collectFields ns rest
          Except.ok ((n, value2) :: kwargs, missing)
        | (_, Option.some e) =>
          Except.error ("Failed to validate argument " ++ sq ++ n ++ sq ++ ": " ++ e)
      | Option.none =>
        match nsLookup ns (hyphenated n) with
        | Option.some value =>
          match validate shape value with
          | (value2, Option.none) => do
            let (kwargs, missing) ← collectFields ns rest
            Except.ok ((n, value2) :: kwargs, missing)
          | (_, Option.some e) =>
            Except.error ("Failed to validate argument " ++ sq ++ n ++ sq ++ ": " ++ e)
        | Option.none => do
          let (kwargs, missing) ← collectFields ns rest
          Except.ok (kwargs, n :: missing)

/-- The aggregated missing-arguments error message. -/
def missingMsg : List String → String
  | [m] => "Arguments object is missing argument " ++ sq ++ m ++ sq
  | ms => "Arguments object is missing arguments " ++ pyStrListRepr ms

/-- The aggregated extra-arguments error message. -/
def extraMsg : List String → String
  | [e] => "Arguments object has an unexpected extra argument " ++ sq ++ e ++ sq
  | es => "Arguments object has unexpected extra arguments " ++ pyStrListRepr es

/-- `_argparse_namespace_to_dict` (typed_args.py): validate every declared
field against the namespace, then report all missing names in one error,
then (when requested) report unexpected extra namespace entries, sorted. -/
def argparseNamespaceToDict (anns : List (String × TypeShape)) (ns : List (String × PVal))
    (disallowExtraArgs : Bool) : Except String (List (String × PVal)) := do
  let (kwargs, missing) ← collectFields ns anns
  if missing.length > 0 then
    Except.error (missingMsg missing)
  else if disallowExtraArgs then
    let annNames := anns.map (fun kv => kv.1)
    let extra :=
      List.insertionSort (fun a b => a ≤ b)
        (((ns.map (fun kv => kv.1)).filter (fun k => !(annNames.contains k))).dedup)
    if extra.length > 0 then Except.error (extraMsg extra)
    else Except.ok kwargs
  else
    Except.ok kwargs

/-- `TypedArgs.from_argparse` as called by `Parser.parse_args`: build the
validated keyword arguments (extra args allowed) and store them as the
instance dictionary.  A record instance is its `__dict__`. -/
def materialize (anns : List (String × TypeShape)) (ns : List (String × PVal)) :
    Except String (List (String × PVal)) :=
  argparseNamespaceToDict anns ns false

/-- `TypedArgs.__eq__`: Python dictionary equality of the two instances'
`__dict__` (same keys, `==`-equal values, order-insensitive). -/
def instancesEqual (d1 d2 : List (String × PVal)) : Bool :=
  d1.all (fun kv =>
    match nsLookup d2 kv.1 with
    | Option.some v => PVal.beq v kv.2
    | Option.none => false) &&
  d2.all (fun kv =>
    match nsLookup d1 kv.1 with
    | Option.some v => PVal.beq v kv.2
    | Option.none => false)

/-! ### The declarative sub-command tree (parser.py) -/

/-- The constructor argument of `Parser`: either a record class (leaf,
identified by its qualified name) or a `SubParserGroup` with optional
common args, a required flag, and sub-parser declarations
`(name, aliases, sub-tree)`.  `aliases = Option.none` models an absent
aliases list. -/
inductive ArgsOrGroup where
  | args (tyName : String)
  | group (commonArgs : Option String) (required : Bool)
      (subs : List (String × Option (List String) × ArgsOrGroup))

/-- A type-mapping lookup (`current_path in mapping` /
`mapping[current_path]`); dictionary keys are unique, so first match is
the entry. -/
def tmGet : List (List String × String) → List String → Option String
  | [], _ => Option.none
  | e :: rest, k => if e.1 == k then Option.some e.2 else tmGet rest k

/-- Python dictionary assignment `mapping[k] = v`: overwrite the binding
of `k` or append a new one. -/
def tmInsert : List (List String × String) → List String → String → List (List String × String)
  | [], k, v => [(k, v)]
  | e :: rest, k, v => if e.1 == k then (k, v) :: rest else e :: tmInsert rest k v

/-- The `SubParserConflict` message raised by `_traverse_get_type_mapping`. -/
def conflictMsg (tyName : String) (path : List String) (other : String) : String :=
  "Detected a sub parser conflict: Adding sub parser `" ++ tyName ++
    "` at sub parser path " ++ pyTupleRepr (path.map PVal.str) ++
    " conflicts with other sub parser `" ++ other ++ "`."

mutual
/-- `_traverse_get_type_mapping` (parser.py): walk the declaration tree,
register each non-required group's common-args type at the group's value
path, and each leaf record type at its value path (primary name and every
alias), raising a `SubParserConflict` when a leaf's value path is already
taken. -/
def traverseGTM : ArgsOrGroup → List String → List (List String × String) →
    Except String (List (List String × String))
  | .group commonArgs required subs, currentPath, m =>
    let m1 :=
      match commonArgs with
      | Option.some c => if !required then tmInsert m currentPath c else m
      | Option.none => m
    traverseDecls subs currentPath m1
  | .args tyName, currentPath, m =>
    match tmGet m currentPath with
    | Option.some other => Except.error (conflictMsg tyName currentPath other)
    | Option.none => Except.ok (tmInsert m currentPath tyName)
termination_by a _ _ => (sizeOf a, 0)

/-- The declaration loop of `_traverse_get_type_mapping`: each sub-parser
declaration is traversed under its primary name and then under each of its
aliases. -/
def traverseDecls : List (String × Option (List String) × ArgsOrGroup) → List String →
    List (List String × String) → Except String (List (List String × String))
  | [], _, m => Except.ok m
  | (name, aliases, sub) :: rest, currentPath, m => do
    let m1 ← traverseGTM sub (currentPath ++ [name]) m
    let m2 ← traverseAliases sub (aliases.getD []) currentPath m1
    traverseDecls rest currentPath m2
termination_by decls _ _ => (sizeOf decls, 0)

/-- The alias loop of `_traverse_get_type_mapping`. -/
def traverseAliases : ArgsOrGroup → List String → List String →
    List (List String × String) → Except String (List (List String × String))
  | _, [], _, m => Except.ok m
  | sub, a :: rest, currentPath, m => do
    let m1 ← traverseGTM sub (currentPath ++ [a]) m
    traverseAliases sub rest currentPath m1
termination_by sub aliases _ _ => (sizeOf sub, List.length aliases + 1)
end

/-- `n` copies of `"sub-"`, as used in the synthetic discriminator
destination `"<sub-...-command>"`. -/
def subDashes (n : Nat) : String :=
  String.join (List.replicate n "sub-")

mutual
/-- The destination paths registered by `_traverse_build_parser`
(parser.py): one per leaf, plus the group path itself for a non-required
group with common args; every child of a group extends the path with the
same synthetic destination name `"<sub-…-command>"` depending only on the
depth.  (The source collects these into a set; duplicates are harmless.) -/
def buildDestPaths : ArgsOrGroup → List String → List (List String)
  | .args _, curDestPath => [curDestPath]
  | .group commonArgs required subs, curDestPath =>
    let base := if commonArgs.isSome && !required then [curDestPath] else []
    let dest := "<" ++ subDashes (curDestPath.length + 1) ++ "command>"
    List.append base (buildDestPathsList subs (List.append curDestPath [dest]))
termination_by a _ => sizeOf a

/-- Destination paths of a list of sub-parser declarations. -/
def buildDestPathsList : List (String × Option (List String) × ArgsOrGroup) → List String →
    List (List String)
  | [], _ => []
  | (_, _, sub) :: rest, curDestPath =>
    List.append (buildDestPaths sub curDestPath) (buildDestPathsList rest curDestPath)
termination_by decls _ => sizeOf decls
end

/-- A constructed `Parser`: the type mapping and the leaf destination
paths, both built once at construction time. -/
structure Parser where
  typeMapping : List (List String × String)
  allLeafDestPaths : List (List String)

/-- `Parser.__init__` (parser.py): building the type mapping validates the
sub-parser structure eagerly, so a conflict aborts construction before any
command line is parsed. -/
def Parser.make (a : ArgsOrGroup) : Except String Parser := do
  let tm ← traverseGTM a [] []
  Except.ok ⟨tm, buildDestPaths a []⟩


/-- The sort order used by `_determine_arg_type` (parser.py): longer
(more specific) destination paths first. -/
def byLenDesc (p q : List String) : Prop := q.length ≤ p.length

instance : DecidableRel byLenDesc := fun _ _ => Nat.decLe _ _

instance : IsTotal (List String) byLenDesc := ⟨fun a b => Nat.le_total b.length a.length⟩

instance : IsTrans (List String) byLenDesc := ⟨fun _ _ _ h1 h2 => Nat.le_trans h2 h1⟩

/-- Translate a destination path into the actual chosen value path by
looking each destination up in the parsed namespace; `Option.none` models
the `AttributeError` that makes `_determine_arg_type` skip the path. -/
def translateDestPath (ns : List (String × PVal)) (destPath : List String) :
    Option (List PVal) :=
  destPath.mapM (fun dest => nsLookup ns dest)

/-- `value_path in type_mapping` / `type_mapping[value_path]`: the mapping
keys are tuples of sub-command name strings. -/
def typeMappingLookup (tm : List (List String × String)) (valuePath : List PVal) :
    Option String :=
  (tm.find? (fun kv => PVal.beqList (kv.1.map PVal.str) valuePath)).map (fun kv => kv.2)

/-- The per-path body of `_determine_arg_type`'s loop: translate the
destination path (skipping it on `AttributeError`) and look the value path
up in the type mapping. -/
def destPathResolve (ns : List (String × PVal)) (tm : List (List String × String))
    (destPath : List String) : Option String :=
  match translateDestPath ns destPath with
  | Option.some valuePath => typeMappingLookup tm valuePath
  | Option.none => Option.none

/-- `_determine_arg_type` (parser.py): sort the destination paths from
longer to shorter, translate each into a value path, and return the record
type of the first one present in the type mapping. -/
def determineArgType (allLeafDestPaths : List (List String)) (ns : List (String × PVal))
    (tm : List (List String × String)) : Option String :=
  (List.insertionSort byLenDesc allLeafDestPaths).findSome? (destPathResolve ns tm)

/-- The record type `Parser.parse_args` materializes for a given parsed
namespace. -/
def Parser.determineType (p : Parser) (ns : List (String × PVal)) : Option String :=
  determineArgType p.allLeafDestPaths ns p.typeMapping

/-- The incomplete-bindings error message of `Parser.verify`. -/
def incompleteBindingsMsg (tyName : String) : String :=
  "Incomplete bindings: There is no binding for type " ++ sq ++ tyName ++ sq ++ "."

/-- The loop of `Parser.verify` (parser.py): every record type reachable
in the type mapping must appear among the offered binding types. -/
def verifyBindings : List String → List String → Except String Unit
  | [], _ => Except.ok ()
  | ty :: rest, offered =>
    if offered.contains ty then verifyBindings rest offered
    else Except.error (incompleteBindingsMsg ty)

/-- `Parser.verify`. -/
def Parser.verify (p : Parser) (bindingTypes : List String) : Except String Unit :=
  verifyBindings (p.typeMapping.map (fun kv => kv.2)) bindingTypes

/-- `App.run` (parser.py) after the command line has been parsed into an
instance whose exact runtime type is `parsedTyName`: resolve and verify
the bindings, then dispatch to the first binding whose declared type
equals the instance type exactly.  `Except.ok h` is the handler that
fired; an error means no handler was invoked. -/
def appRun {α : Type} (p : Parser) (bindings : List (String × α)) (parsedTyName : String) :
    Except String α := do
  Parser.verify p (bindings.map (fun kv => kv.1))
  match bindings.find? (fun b => b.1 == parsedTyName) with
  | Option.some b => Except.ok b.2
  | Option.none =>
    Except.error ("Argument type " ++ parsedTyName ++ " did not match anything in the bindings.")

/-- The declared-order list of field names absent from the namespace under
both spellings. -/
def missingNames (anns : List (String × TypeShape)) (ns : List (String × PVal)) : List String :=
  (anns.filter (fun kv =>
    (nsLookup ns kv.1).isNone && (nsLookup ns (hyphenated kv.1)).isNone)).map (fun kv => kv.1)

mutual
/-- Python `==` is reflexive on the modelled values. -/
theorem PVal.beq_refl : (v : PVal) → PVal.beq v v = true
  | .none => by simp [PVal.beq]
  | .bool _ => by simp [PVal.beq]
  | .int _ => by simp [PVal.beq]
  | .str _ => by simp [PVal.beq]
  | .list xs => by simp [PVal.beq]; exact PVal.beqList_refl xs
  | .tuple xs => by simp [PVal.beq]; exact PVal.beqList_refl xs
  | .enumMember e m v => by simp [PVal.beq]; exact PVal.beq_refl v
  | .obj n r => by simp [PVal.beq]
termination_by v => sizeOf v

/-- Elementwise Python `==` is reflexive. -/
theorem PVal.beqList_refl : (xs : List PVal) → PVal.beqList xs xs = true
  | [] => by simp [PVal.beqList]
  | x :: xs => by
    simp [PVal.beqList]
    exact ⟨PVal.beq_refl x, PVal.beqList_refl xs⟩
termination_by xs => sizeOf xs
end


/-- Reduction of an `Except` bind of a pure value. -/
theorem except_pure_bind {α β : Type} (a : α) (f : α → Except String β) :
    (do let x ← (Except.pure a : Except String α); f x) = f a := rfl

/-- Reduction of an `Except` bind of an error. -/
theorem except_error_bind {α β : Type} (e : String) (f : α → Except String β) :
    (do let x ← (Except.error e : Except String α); f x) = Except.error e := rfl

/-! ## Claims -/

/-- C9: for every `Choices` container `c` and value `v`, membership
`v in c` holds iff: when `v` is a list or a tuple, every element of `v` is
individually an element of `c` (so the empty list or tuple belongs to
every `Choices` container, including an empty one); otherwise `v` itself
must be an element of `c`. -/
theorem choices_contains_spec (c : List PVal) (v : PVal) :
    (∀ xs, choicesContains c (PVal.list xs) = xs.all (fun x => listContains c x)) ∧
    (∀ xs, choicesContains c (PVal.tuple xs) = xs.all (fun x => listContains c x)) ∧
    ((∀ xs, v ≠ PVal.list xs) → (∀ xs, v ≠ PVal.tuple xs) →
      choicesContains c v = listContains c v) ∧
    choicesContains c (PVal.list []) = true ∧
    choicesContains ([] : List PVal) (PVal.list []) = true := by
  refine ⟨fun xs => rfl, fun xs => rfl, ?_, rfl, rfl⟩
  intro h1 h2
  cases v with
  | none => simp [choicesContains]
  | bool b => simp [choicesContains]
  | int n => simp [choicesContains]
  | str s => simp [choicesContains]
  | list xs => exact (h1 xs rfl).elim
  | tuple xs => exact (h2 xs rfl).elim
  | enumMember e m val => simp [choicesContains]
  | obj n r => simp [choicesContains]

/-- Witness for C9 at a concrete input: a non-list, non-tuple value is
checked as a single element. -/
theorem choices_contains_witness :
    choicesContains [PVal.int 1] (PVal.int 1) = listContains [PVal.int 1] (PVal.int 1) :=
  (choices_contains_spec [PVal.int 1] (PVal.int 1)).2.2.1
    (fun xs => by simp) (fun xs => by simp)

/-- C2: for a scalar-typed field, validation succeeds (returning the value
unchanged) exactly when the runtime value is an `isinstance` of the
declared type; in particular a value of the exact declared type is
returned unchanged, and any value failing the `isinstance` check produces
an error naming both the actual and the expected type. -/
theorem scalar_validate_spec (t : PyType) (v : PVal)
    (hself : List.contains (typeOf v).mro (typeOf v).name = true) :
    (validate (TypeShape.scalar t) v = (v, Option.none) ↔ isinstance v t = true) ∧
    (typeOf v = t → validate (TypeShape.scalar t) v = (v, Option.none)) ∧
    (isinstance v t = false →
      validate (TypeShape.scalar t) v =
        (v, Option.some ("value is of type " ++ typenameOf v ++ ", expected " ++ typename t))) := by
  have hval : validate (TypeShape.scalar t) v =
      if isinstance v t then (v, Option.none) else (v, Option.some (scalarErrMsg t v)) := by
    simp [validate]
  refine ⟨?_, ?_, ?_⟩
  · cases hi : isinstance v t with
    | true => simp [hval, hi]
    | false => simp [hval, hi]
  · intro ht
    have hi : isinstance v t = true := by
      unfold isinstance
      rw [← ht]
      exact hself
    simp [hval, hi]
  · intro hi
    simp [hval, hi, scalarErrMsg]

/-- Witness for C2 at a concrete input: an `int` value against an `int`
field. -/
theorem scalar_validate_witness :
    validate (TypeShape.scalar ⟨"int", ["int", "object"]⟩) (PVal.int 3) =
      (PVal.int 3, Option.none) :=
  (scalar_validate_spec ⟨"int", ["int", "object"]⟩ (PVal.int 3) (by decide)).2.1 (by decide)

/-- C3: `resolve_default` deep-copies the declared default per
materialization: the two copies are fresh objects distinct from each
other and from the original default, so mutating the first instance's
value in place changes it (last clause) while the second instance's value
and the original default object are unchanged. -/
theorem default_deepcopy_isolation (h : ListHeap) (r0 : Nat)
    (f : List PVal → List PVal) (hr : r0 < List.length h) :
    ((resolveDefaultHeap h r0).2 ≠ r0) ∧
    ((resolveDefaultHeap (resolveDefaultHeap h r0).1 r0).2 ≠ r0) ∧
    ((resolveDefaultHeap h r0).2 ≠ (resolveDefaultHeap (resolveDefaultHeap h r0).1 r0).2) ∧
    (heapGet (mutateList (resolveDefaultHeap (resolveDefaultHeap h r0).1 r0).1
        (resolveDefaultHeap h r0).2 f) (resolveDefaultHeap (resolveDefaultHeap h r0).1 r0).2 =
      heapGet h r0) ∧
    (heapGet (mutateList (resolveDefaultHeap (resolveDefaultHeap h r0).1 r0).1
        (resolveDefaultHeap h r0).2 f) r0 = heapGet h r0) ∧
    (heapGet (mutateList (resolveDefaultHeap (resolveDefaultHeap h r0).1 r0).1
        (resolveDefaultHeap h r0).2 f) (resolveDefaultHeap h r0).2 = f (heapGet h r0)) := by
  have hc : heapGet (h ++ [heapGet h r0]) r0 = heapGet h r0 := by
    simp [heapGet, List.getD_eq_getElem?_getD, List.getElem?_append_left hr]
  have e1 : resolveDefaultHeap h r0 = (h ++ [heapGet h r0], h.length) := rfl
  have e2 : resolveDefaultHeap (h ++ [heapGet h r0]) r0 =
      ((h ++ [heapGet h r0]) ++ [heapGet h r0], h.length + 1) := by
    simp [resolveDefaultHeap, hc]
  have hget2 : heapGet ((h ++ [heapGet h r0]) ++ [heapGet h r0]) h.length = heapGet h r0 := by
    rw [heapGet, List.getD_eq_getElem?_getD]
    rw [List.getElem?_append_left (by simp)]
    rw [List.getElem?_concat_length]
    rfl
  simp only [e1, e2, mutateList, hget2]
  refine ⟨by simp; omega, by simp; omega, by simp, ?_, ?_, ?_⟩
  · rw [heapGet, List.getD_eq_getElem?_getD]
    rw [List.getElem?_set_ne (by omega)]
    rw [List.getElem?_append_right (by simp)]
    simp
  · rw [heapGet, List.getD_eq_getElem?_getD]
    rw [List.getElem?_set_ne (by omega)]
    rw [List.getElem?_append_left (by simp; omega)]
    rw [List.getElem?_append_left hr]
    rw [heapGet, List.getD_eq_getElem?_getD]
  · rw [heapGet, List.getD_eq_getElem?_getD]
    rw [List.getElem?_set_self (by simp)]
    simp

/-- Witness for C3 at a concrete input: a `["foo", "bar"]` default,
appending `"baz"` to the first materialized copy. -/
theorem default_deepcopy_isolation_witness :
    heapGet (mutateList (resolveDefaultHeap
        (resolveDefaultHeap [[PVal.str "foo", PVal.str "bar"]] 0).1 0).1
      (resolveDefaultHeap [[PVal.str "foo", PVal.str "bar"]] 0).2
      (fun xs => List.append xs [PVal.str "baz"]))
      (resolveDefaultHeap (resolveDefaultHeap [[PVal.str "foo", PVal.str "bar"]] 0).1 0).2 =
      heapGet [[PVal.str "foo", PVal.str "bar"]] 0 :=
  (default_deepcopy_isolation [[PVal.str "foo", PVal.str "bar"]] 0
    (fun xs => List.append xs [PVal.str "baz"]) (by decide)).2.2.2.1


/-- C10 counterexample: a `List[bool]` field is non-Optional, non-bool,
non-positional and has `default=None`, yet flag synthesis treats it as a
boolean switch (inheriting the bool special case from the unwrapped
element annotation) and does not mark it required. -/
theorem arg_required_counterexample :
    TypeShape.isBool (TypeShape.list (TypeShape.scalar ⟨"bool", ["bool", "int", "object"]⟩)) =
      false ∧
    TypeShape.underlyingIfOptional
      (TypeShape.list (TypeShape.scalar ⟨"bool", ["bool", "int", "object"]⟩)) = Option.none ∧
    mkArgEmpty.positional = false ∧
    PVal.beq mkArgEmpty.default PVal.none = true ∧
    mkArgEmpty.dynamicDefault = Option.none ∧
    buildAddArgumentArgs "x"
        (TypeShape.list (TypeShape.scalar ⟨"bool", ["bool", "int", "object"]⟩)) mkArgEmpty =
      Except.ok (["--x"],
        ⟨false, Option.some "store_true", Option.none, Option.some NargsKw.star,
          Option.none, Option.some "x"⟩) := by
  refine ⟨rfl, rfl, rfl, by simp [PVal.beq, mkArgEmpty], rfl, ?_⟩
  have hd : mkArgEmpty.hasDefault = false := by simp [Arg.hasDefault, mkArgEmpty, PVal.beq]
  have hnargs : mkArgEmpty.nargsWithDefault = NArgsVal.star := rfl
  simp only [buildAddArgumentArgs, TypeShape.underlyingIfList, TypeShape.isBool, hd, hnargs]
  rfl

/-- C10 (amended): `has_default()` is `False` whenever both `default` and
`dynamic_default` are `None`, so `default=None` is indistinguishable from
no default; a non-positional field with such an `Arg` whose annotation is
non-`Optional` and non-bool after unwrapping the `Optional` and `List`
layers is marked required during flag synthesis. -/
theorem arg_default_none_required (a : Arg) (shape : TypeShape) (n : String)
    (hdef : PVal.beq a.default PVal.none = true)
    (hdyn : a.dynamicDefault = Option.none) :
    a.hasDefault = false ∧
    (a.positional = false →
     shape.underlyingIfOptional = Option.none →
     TypeShape.isBool ((shape.underlyingIfList).getD shape) = false →
     ∀ r, buildAddArgumentArgs n shape a = Except.ok r → r.2.required = true) := by
  have hhd : a.hasDefault = false := by
    simp [Arg.hasDefault, hdef, hdyn]
  refine ⟨hhd, ?_⟩
  intro hpos hopt hbool r hr
  cases shape with
  | optional inner => simp [TypeShape.underlyingIfOptional] at hopt
  | scalar t =>
    simp only [TypeShape.underlyingIfList, Option.getD, TypeShape.isBool] at hbool
    simp only [buildAddArgumentArgs, TypeShape.underlyingIfList, TypeShape.isBool,
      hbool, hhd, hpos, Option.isSome, Bool.false_and, Bool.and_false, Bool.or_false,
      Bool.not_false, Bool.and_true, Bool.true_and, if_false, Bool.false_or] at hr
    repeat' split at hr
    all_goals first
      | (cases hr; rfl)
      | simp at hr
  | union ms =>
    simp only [TypeShape.underlyingIfList, Option.getD, TypeShape.isBool] at hbool
    simp only [buildAddArgumentArgs, TypeShape.underlyingIfList, TypeShape.isBool,
      hhd, hpos, Bool.false_and, Bool.and_false, Bool.or_false,
      Bool.not_false, Bool.and_true, Bool.true_and, if_false, Bool.false_or] at hr
    repeat' split at hr
    all_goals first
      | (cases hr; rfl)
      | simp at hr
  | list inner =>
    simp only [TypeShape.underlyingIfList, Option.getD] at hbool
    simp only [buildAddArgumentArgs, TypeShape.underlyingIfList,
      hbool, hhd, hpos, Bool.false_and, Bool.and_false, Bool.or_false,
      Bool.not_false, Bool.and_true, Bool.true_and, if_false, Bool.false_or] at hr
    repeat' split at hr
    all_goals first
      | (cases hr; rfl)
      | simp at hr
  | literal vals =>
    simp only [TypeShape.underlyingIfList, Option.getD, TypeShape.isBool] at hbool
    simp only [buildAddArgumentArgs, TypeShape.underlyingIfList, TypeShape.isBool,
      hhd, hpos, Bool.false_and, Bool.and_false, Bool.or_false,
      Bool.not_false, Bool.and_true, Bool.true_and, if_false, Bool.false_or] at hr
    repeat' split at hr
    all_goals first
      | (cases hr; rfl)
      | simp at hr
  | enum e ms =>
    simp only [TypeShape.underlyingIfList, Option.getD, TypeShape.isBool] at hbool
    simp only [buildAddArgumentArgs, TypeShape.underlyingIfList, TypeShape.isBool,
      hhd, hpos, Bool.false_and, Bool.and_false, Bool.or_false,
      Bool.not_false, Bool.and_true, Bool.true_and, if_false, Bool.false_or] at hr
    repeat' split at hr
    all_goals first
      | (cases hr; rfl)
      | simp at hr

/-- Witness for the amended C10 at a concrete input: a scalar `str` field
with no default is synthesized as required. -/
theorem arg_default_none_required_witness :
    mkArgEmpty.hasDefault = false ∧
    ∀ r, buildAddArgumentArgs "x" (TypeShape.scalar ⟨"str", ["str", "object"]⟩) mkArgEmpty =
      Except.ok r → r.2.required = true :=
  ⟨(arg_default_none_required mkArgEmpty (TypeShape.scalar ⟨"str", ["str", "object"]⟩) "x"
      (by simp [PVal.beq, mkArgEmpty]) rfl).1,
   fun r hr =>
    (arg_default_none_required mkArgEmpty (TypeShape.scalar ⟨"str", ["str", "object"]⟩) "x"
      (by simp [PVal.beq, mkArgEmpty]) rfl).2 rfl rfl rfl r hr⟩


/-- First-match lemma for `List.find?` over a split list. -/
theorem find_first_of_split {α : Type} (p : α → Bool) (pre : List α) (x : α) (post : List α)
    (hpre : ∀ a ∈ pre, p a = false) (hx : p x = true) :
    (pre ++ x :: post).find? p = Option.some x := by
  induction pre with
  | nil => simp [List.find?_cons_of_pos _ hx]
  | cons a l ih =>
    have ha : p a = false := hpre a (by simp)
    rw [List.cons_append, List.find?_cons_of_neg _ (by simp [ha])]
    exact ih (fun b hb => hpre b (by simp [hb]))

/-- C1 counterexample: for the enum `E` with single member `foo = 1`, the
raw value `"FOO"` is name-alike to the member `foo` (it matches after
normalizing case), yet `validate` returns the enumeration error rather
than the member: the fuzzy name matching lives in the enum `type=`
converter, not in `validate`. -/
theorem enum_validate_counterexample :
    pyNormalize "FOO" = pyNormalize "foo" ∧
    fuzzyCompare (PVal.str "FOO") (PVal.str "foo") = true ∧
    validate (TypeShape.enum "E" [("foo", PVal.int 1)]) (PVal.str "FOO") =
      (PVal.str "FOO",
        Option.some (enumErrMsg "E" [("foo", PVal.int 1)] (PVal.str "FOO"))) ∧
    validate (TypeShape.enum "E" [("foo", PVal.int 1)]) (PVal.str "FOO") ≠
      (PVal.enumMember "E" "foo" (PVal.int 1), Option.none) := by
  have hv : validate (TypeShape.enum "E" [("foo", PVal.int 1)]) (PVal.str "FOO") =
      (PVal.str "FOO", Option.some (enumErrMsg "E" [("foo", PVal.int 1)] (PVal.str "FOO"))) := by
    simp [validate, enumFirstMatch, PVal.beq]
  refine ⟨by decide, by decide, hv, ?_⟩
  rw [hv]
  simp

/-- C1 (amended): for an Enum field, `validate` maps a raw value equal to
some member's underlying value (or the member itself) to that enum member
(first part); a name-alike CLI string is mapped to the member by the enum
`type=` converter applied before validation (second part), and validating
the converter's output returns that member (third part); any other value
yields the error enumerating the allowed enum values (fourth part). -/
theorem enum_validate_spec :
    (∀ (eName : String) (pre : List (String × PVal)) (nm : String) (val : PVal)
        (post : List (String × PVal)) (v : PVal),
      (∀ p ∈ pre, PVal.beq v p.2 = false ∧
        PVal.beq v (PVal.enumMember eName p.1 p.2) = false) →
      PVal.beq v val = true →
      validate (TypeShape.enum eName (pre ++ (nm, val) :: post)) v =
        (PVal.enumMember eName nm val, Option.none)) ∧
    (∀ (eName : String) (pre : List (String × PVal)) (nm : String) (val : PVal)
        (post : List (String × PVal)) (x : String),
      (∀ p ∈ pre,
        fuzzyCompare (PVal.str x) (PVal.str p.1) = false ∧
        fuzzyCompare (PVal.str x) p.2 = false ∧
        (∀ xc, pyConstructFromStr p.2 x = Option.some xc → fuzzyCompare xc p.2 = false)) →
      fuzzyCompare (PVal.str x) (PVal.str nm) = true →
      enumTypeConverter eName (pre ++ (nm, val) :: post) x = PVal.enumMember eName nm val) ∧
    (∀ (eName : String) (pre : List (String × PVal)) (nm : String) (val : PVal)
        (post : List (String × PVal)),
      (∀ p ∈ pre, PVal.beq (PVal.enumMember eName nm val) p.2 = false ∧
        (nm == p.1) = false) →
      validate (TypeShape.enum eName (pre ++ (nm, val) :: post))
          (PVal.enumMember eName nm val) =
        (PVal.enumMember eName nm val, Option.none)) ∧
    (∀ (eName : String) (members : List (String × PVal)) (v : PVal),
      (∀ m ∈ members, PVal.beq v m.2 = false ∧
        PVal.beq v (PVal.enumMember eName m.1 m.2) = false) →
      validate (TypeShape.enum eName members) v =
        (v, Option.some (enumErrMsg eName members v))) := by
  refine ⟨?_, ?_, ?_, ?_⟩
  · intro eName pre nm val post v hpre hval
    have hfind : enumFirstMatch eName (pre ++ (nm, val) :: post) v = Option.some (nm, val) := by
      unfold enumFirstMatch
      exact find_first_of_split _ pre (nm, val) post
        (fun p hp => by simp [(hpre p hp).1, (hpre p hp).2])
        (by simp [hval])
    simp [validate, hfind]
  · intro eName pre nm val post x hpre hnm
    have hfind : enumConverterFirstMatch (pre ++ (nm, val) :: post) x = Option.some (nm, val) := by
      unfold enumConverterFirstMatch
      refine find_first_of_split _ pre (nm, val) post (fun p hp => ?_) (by simp [hnm])
      have h1 := (hpre p hp).1
      have h2 := (hpre p hp).2.1
      have h3 := (hpre p hp).2.2
      simp [h1, h2]
      cases hc : pyConstructFromStr p.2 x with
      | none => simp
      | some xc => simpa using h3 xc hc
    simp [enumTypeConverter, hfind]
  · intro eName pre nm val post hpre
    have hfind : enumFirstMatch eName (pre ++ (nm, val) :: post) (PVal.enumMember eName nm val) =
        Option.some (nm, val) := by
      unfold enumFirstMatch
      refine find_first_of_split _ pre (nm, val) post (fun p hp => ?_) ?_
      · have h1 := (hpre p hp).1
        have h2 := (hpre p hp).2
        simp [h1, PVal.beq, h2]
      · simp [PVal.beq_refl]
    simp [validate, hfind]
  · intro eName members v hall
    have hfind : enumFirstMatch eName members v = Option.none := by
      unfold enumFirstMatch
      rw [List.find?_eq_none]
      intro p hp
      simp [(hall p hp).1, (hall p hp).2]
    simp [validate, hfind]

/-- Witness for the amended C1 at a concrete enum
`E = {alpha: "a", beta: "b"}`. -/
theorem enum_validate_spec_witness :
    validate (TypeShape.enum "E" [("alpha", PVal.str "a"), ("beta", PVal.str "b")])
        (PVal.str "b") =
      (PVal.enumMember "E" "beta" (PVal.str "b"), Option.none) ∧
    enumTypeConverter "E" [("alpha", PVal.str "a"), ("beta", PVal.str "b")] "BETA" =
      PVal.enumMember "E" "beta" (PVal.str "b") ∧
    validate (TypeShape.enum "E" [("alpha", PVal.str "a"), ("beta", PVal.str "b")])
        (PVal.enumMember "E" "beta" (PVal.str "b")) =
      (PVal.enumMember "E" "beta" (PVal.str "b"), Option.none) ∧
    validate (TypeShape.enum "E" [("alpha", PVal.str "a"), ("beta", PVal.str "b")])
        (PVal.str "zzz") =
      (PVal.str "zzz",
        Option.some (enumErrMsg "E" [("alpha", PVal.str "a"), ("beta", PVal.str "b")]
          (PVal.str "zzz"))) := by
  refine ⟨?_, ?_, ?_, ?_⟩
  · exact enum_validate_spec.1 "E" [("alpha", PVal.str "a")] "beta" (PVal.str "b") [] (PVal.str "b")
      (by intro p hp; simp at hp; subst hp; exact ⟨by simp [PVal.beq], by simp [PVal.beq]⟩)
      (by simp [PVal.beq])
  · exact enum_validate_spec.2.1 "E" [("alpha", PVal.str "a")] "beta" (PVal.str "b") [] "BETA"
      (by
        intro p hp; simp at hp; subst hp
        refine ⟨by decide, by decide, ?_⟩
        intro xc hxc
        simp [pyConstructFromStr] at hxc
        subst hxc
        decide)
      (by decide)
  · exact enum_validate_spec.2.2.1 "E" [("alpha", PVal.str "a")] "beta" (PVal.str "b") []
      (by intro p hp; simp at hp; subst hp; exact ⟨by simp [PVal.beq], by decide⟩)
  · exact enum_validate_spec.2.2.2 "E" [("alpha", PVal.str "a"), ("beta", PVal.str "b")]
      (PVal.str "zzz")
      (by
        intro m hm
        simp at hm
        rcases hm with hm | hm <;> subst hm <;>
          exact ⟨by simp [PVal.beq], by simp [PVal.beq]⟩)


/-- Reduction of an `Except` bind of an ok value. -/
theorem except_ok_bind {α β : Type} (a : α) (f : α → Except String β) :
    (do let x ← (Except.ok a : Except String α); f x) = f a := rfl

/-- The verify loop errors on the first reachable type without a binding. -/
theorem verifyBindings_missing (values offered : List String) (ty0 : String)
    (hmem : ty0 ∈ values) (hmiss : ty0 ∉ offered)
    (hcover : ∀ ty ∈ values, ty ≠ ty0 → ty ∈ offered) :
    verifyBindings values offered = Except.error (incompleteBindingsMsg ty0) := by
  induction values with
  | nil => simp at hmem
  | cons ty rest ih =>
    by_cases hty : ty = ty0
    · subst hty
      have hc : offered.contains ty = false := by
        simpa using hmiss
      have hstep : verifyBindings (ty :: rest) offered =
          if offered.contains ty then verifyBindings rest offered
          else Except.error (incompleteBindingsMsg ty) := rfl
      rw [hstep, hc]
      simp
    · have hin : ty ∈ offered := hcover ty (by simp) hty
      have hc : offered.contains ty = true := by simpa using hin
      rw [verifyBindings, hc]
      simp only [if_true]
      exact ih (by
          rcases List.mem_cons.mp hmem with h | h
          · exact absurd h.symm hty
          · exact h)
        (fun t ht hne => hcover t (List.mem_cons_of_mem _ ht) hne)

/-- C7: when every reachable record type except `ty0` has a binding and
`ty0` has none, running the app yields the incomplete-bindings error
naming `ty0`, and no handler is invoked (the run never returns a
handler). -/
theorem app_run_incomplete {α : Type} (p : Parser) (bindings : List (String × α))
    (parsedTyName ty0 : String)
    (hmem : ty0 ∈ p.typeMapping.map (fun kv => kv.2))
    (hmiss : ty0 ∉ bindings.map (fun kv => kv.1))
    (hcover : ∀ ty ∈ p.typeMapping.map (fun kv => kv.2), ty ≠ ty0 →
      ty ∈ bindings.map (fun kv => kv.1)) :
    appRun p bindings parsedTyName = Except.error (incompleteBindingsMsg ty0) ∧
    ∀ handler : α, appRun p bindings parsedTyName ≠ Except.ok handler := by
  have hv : Parser.verify p (bindings.map (fun kv => kv.1)) =
      Except.error (incompleteBindingsMsg ty0) :=
    verifyBindings_missing _ _ _ hmem hmiss hcover
  have hrun : appRun p bindings parsedTyName = Except.error (incompleteBindingsMsg ty0) := by
    unfold appRun
    rw [hv]
    rfl
  exact ⟨hrun, fun handler h => by rw [hrun] at h; exact Except.noConfusion h⟩

/-- Witness for C7 at a concrete parser with two leaves and a binding for
only one of them. -/
theorem app_run_incomplete_witness :
    appRun ⟨[(["foo"], "FooArgs"), (["bar"], "BarArgs")], [["<sub-command>"]]⟩
        [("FooArgs", "fooHandler")] "FooArgs" =
      Except.error (incompleteBindingsMsg "BarArgs") :=
  (app_run_incomplete ⟨[(["foo"], "FooArgs"), (["bar"], "BarArgs")], [["<sub-command>"]]⟩
    [("FooArgs", "fooHandler")] "FooArgs" "BarArgs"
    (by simp) (by simp)
    (by
      intro ty hty hne
      simp at hty
      rcases hty with h | h
      · simp [h]
      · exact absurd h hne)).1

/-- When no reserved name is used and every present field validates, the
field loop succeeds and collects exactly the declared-order missing
names. -/
theorem collectFields_ok (anns : List (String × TypeShape)) (ns : List (String × PVal))
    (hres : ∀ kv ∈ anns, typedArgsClassDict.contains kv.1 = false)
    (h1 : ∀ kv v, kv ∈ anns → nsLookup ns kv.1 = Option.some v →
      (validate kv.2 v).2 = Option.none)
    (h2 : ∀ kv v, kv ∈ anns → nsLookup ns kv.1 = Option.none →
      nsLookup ns (hyphenated kv.1) = Option.some v → (validate kv.2 v).2 = Option.none) :
    ∃ kwargs, collectFields ns anns = Except.ok (kwargs, missingNames anns ns) := by
  induction anns with
  | nil => exact ⟨[], rfl⟩
  | cons kv rest ih =>
    obtain ⟨kw, hkw⟩ := ih (fun a ha => hres a (List.mem_cons_of_mem _ ha))
      (fun a v ha hv => h1 a v (List.mem_cons_of_mem _ ha) hv)
      (fun a v ha hv hv2 => h2 a v (List.mem_cons_of_mem _ ha) hv hv2)
    obtain ⟨n, shape⟩ := kv
    have hr : typedArgsClassDict.contains n = false := hres (n, shape) (by simp)
    cases hlook : nsLookup ns n with
    | some v =>
      cases hval : validate shape v with
      | mk v2 err =>
        have herr : err = Option.none := by
          have := h1 (n, shape) v (by simp) hlook
          rw [hval] at this
          exact this
        subst herr
        refine ⟨(n, v2) :: kw, ?_⟩
        simp only [collectFields, hr, hlook, hval, hkw, Bool.false_eq_true, if_false,
          except_ok_bind]
        have hms : missingNames ((n, shape) :: rest) ns = missingNames rest ns := by
          simp [missingNames, List.filter_cons, hlook]
        rw [hms]
    | none =>
      cases hlook2 : nsLookup ns (hyphenated n) with
      | some v =>
        cases hval : validate shape v with
        | mk v2 err =>
          have herr : err = Option.none := by
            have := h2 (n, shape) v (by simp) hlook hlook2
            rw [hval] at this
            exact this
          subst herr
          refine ⟨(n, v2) :: kw, ?_⟩
          simp only [collectFields, hr, hlook, hlook2, hval, hkw, Bool.false_eq_true, if_false,
            except_ok_bind]
          have hms : missingNames ((n, shape) :: rest) ns = missingNames rest ns := by
            simp [missingNames, List.filter_cons, hlook, hlook2]
          rw [hms]
      | none =>
        refine ⟨kw, ?_⟩
        simp only [collectFields, hr, hlook, hlook2, hkw, Bool.false_eq_true, if_false,
          except_ok_bind]
        have hms : missingNames ((n, shape) :: rest) ns = n :: missingNames rest ns := by
          simp [missingNames, List.filter_cons, hlook, hlook2]
        rw [hms]

/-- C6: when one or more declared field names are absent from the raw
values under both spellings (and the present ones validate), the
materializer fails with the single aggregated error naming all missing
names in declared order; the missing-name list contains exactly the
declared names absent under both spellings. -/
theorem missing_fields_aggregated (anns : List (String × TypeShape)) (ns : List (String × PVal))
    (hres : ∀ kv ∈ anns, typedArgsClassDict.contains kv.1 = false)
    (h1 : ∀ kv v, kv ∈ anns → nsLookup ns kv.1 = Option.some v →
      (validate kv.2 v).2 = Option.none)
    (h2 : ∀ kv v, kv ∈ anns → nsLookup ns kv.1 = Option.none →
      nsLookup ns (hyphenated kv.1) = Option.some v → (validate kv.2 v).2 = Option.none)
    (hmiss : missingNames anns ns ≠ []) :
    argparseNamespaceToDict anns ns false = Except.error (missingMsg (missingNames anns ns)) ∧
    (∀ n, n ∈ missingNames anns ns ↔
      ∃ shape, (n, shape) ∈ anns ∧ nsLookup ns n = Option.none ∧
        nsLookup ns (hyphenated n) = Option.none) := by
  obtain ⟨kw, hkw⟩ := collectFields_ok anns ns hres h1 h2
  constructor
  · have hlen : 0 < (missingNames anns ns).length := List.length_pos.mpr hmiss
    simp only [argparseNamespaceToDict, hkw, except_ok_bind]
    simp [hlen, Nat.pos_iff_ne_zero.mp hlen]
  · intro n
    simp only [missingNames, List.mem_map, List.mem_filter]
    constructor
    · rintro ⟨⟨n', shape⟩, ⟨hmem, habs⟩, rfl⟩
      simp only [Bool.and_eq_true, Option.isNone_iff_eq_none] at habs
      exact ⟨shape, hmem, habs.1, habs.2⟩
    · rintro ⟨shape, hmem, habs1, habs2⟩
      exact ⟨(n, shape), ⟨hmem, by simp [habs1, habs2]⟩, rfl⟩

/-- Witness for C6 at a concrete record with two declared fields and an
empty namespace. -/
theorem missing_fields_aggregated_witness :
    argparseNamespaceToDict
        [("alpha", TypeShape.scalar ⟨"str", ["str", "object"]⟩),
         ("beta", TypeShape.scalar ⟨"str", ["str", "object"]⟩)] [] false =
      Except.error (missingMsg (missingNames
        [("alpha", TypeShape.scalar ⟨"str", ["str", "object"]⟩),
         ("beta", TypeShape.scalar ⟨"str", ["str", "object"]⟩)] [])) :=
  (missing_fields_aggregated
    [("alpha", TypeShape.scalar ⟨"str", ["str", "object"]⟩),
     ("beta", TypeShape.scalar ⟨"str", ["str", "object"]⟩)] []
    (by intro kv hkv; simp at hkv; rcases hkv with h | h <;> subst h <;> decide)
    (by intro kv v _ hv; simp [nsLookup] at hv)
    (by intro kv v _ _ hv; simp [nsLookup] at hv)
    (by simp [missingNames, nsLookup])).1


/-- The keyword-argument keys produced by the field loop form a sublist of
the declared names. -/
theorem collectFields_keys_sublist (anns : List (String × TypeShape)) (ns : List (String × PVal))
    (kw : List (String × PVal)) (ms : List String)
    (h : collectFields ns anns = Except.ok (kw, ms)) :
    (kw.map (fun kv => kv.1)).Sublist (anns.map (fun kv => kv.1)) := by
  induction anns generalizing kw ms with
  | nil =>
    simp only [collectFields] at h
    cases h
    simp
  | cons kv rest ih =>
    obtain ⟨n, shape⟩ := kv
    simp only [collectFields] at h
    split at h
    · exact absurd h (by simp)
    · split at h
      · split at h
        · cases hrec : collectFields ns rest with
          | error e => rw [hrec] at h; exact absurd h (by simp [except_error_bind])
          | ok pair =>
            rw [hrec, except_ok_bind] at h
            cases h
            simpa using List.Sublist.cons₂ n (ih pair.1 pair.2 hrec)
        · exact absurd h (by simp)
      · split at h
        · split at h
          · cases hrec : collectFields ns rest with
            | error e => rw [hrec] at h; exact absurd h (by simp [except_error_bind])
            | ok pair =>
              rw [hrec, except_ok_bind] at h
              cases h
              simpa using List.Sublist.cons₂ n (ih pair.1 pair.2 hrec)
          · exact absurd h (by simp)
        · cases hrec : collectFields ns rest with
          | error e => rw [hrec] at h; exact absurd h (by simp [except_error_bind])
          | ok pair =>
            rw [hrec, except_ok_bind] at h
            cases h
            exact List.Sublist.trans (ih pair.1 pair.2 hrec) (by simp)

/-- Every declared field is either reported missing or validated and
stored by the field loop. -/
theorem collectFields_field_value (anns : List (String × TypeShape)) (ns : List (String × PVal))
    (kw : List (String × PVal)) (ms : List String)
    (h : collectFields ns anns = Except.ok (kw, ms)) :
    ∀ kv ∈ anns, kv.1 ∈ ms ∨ ∃ raw v,
      (nsLookup ns kv.1 = Option.some raw ∨
        (nsLookup ns kv.1 = Option.none ∧ nsLookup ns (hyphenated kv.1) = Option.some raw)) ∧
      validate kv.2 raw = (v, Option.none) ∧ (kv.1, v) ∈ kw := by
  induction anns generalizing kw ms with
  | nil => intro kv hkv; simp at hkv
  | cons kv0 rest ih =>
    obtain ⟨n, shape⟩ := kv0
    intro kv hkv
    simp only [collectFields] at h
    split at h
    · exact absurd h (by simp)
    · rename_i hres
      rcases List.mem_cons.mp hkv with rfl | hmem
      · split at h
        · rename_i v hlook
          split at h
          · rename_i v2 hval
            cases hrec : collectFields ns rest with
            | error e => rw [hrec] at h; exact absurd h (by simp [except_error_bind])
            | ok pair =>
              rw [hrec, except_ok_bind] at h
              cases h
              exact Or.inr ⟨v, v2, Or.inl hlook, hval, by simp⟩
          · exact absurd h (by simp)
        · rename_i hlook
          split at h
          · rename_i v hlook2
            split at h
            · rename_i v2 hval
              cases hrec : collectFields ns rest with
              | error e => rw [hrec] at h; exact absurd h (by simp [except_error_bind])
              | ok pair =>
                rw [hrec, except_ok_bind] at h
                cases h
                exact Or.inr ⟨v, v2, Or.inr ⟨hlook, hlook2⟩, hval, by simp⟩
            · exact absurd h (by simp)
          · rename_i hlook2
            cases hrec : collectFields ns rest with
            | error e => rw [hrec] at h; exact absurd h (by simp [except_error_bind])
            | ok pair =>
              rw [hrec, except_ok_bind] at h
              cases h
              exact Or.inl (by simp)
      · split at h
        · split at h
          · cases hrec : collectFields ns rest with
            | error e => rw [hrec] at h; exact absurd h (by simp [except_error_bind])
            | ok pair =>
              rw [hrec, except_ok_bind] at h
              cases h
              rcases ih pair.1 pair.2 hrec kv hmem with hms | ⟨raw, v, hw, hv, hkw⟩
              · exact Or.inl hms
              · exact Or.inr ⟨raw, v, hw, hv, by simp [hkw]⟩
          · exact absurd h (by simp)
        · split at h
          · split at h
            · cases hrec : collectFields ns rest with
              | error e => rw [hrec] at h; exact absurd h (by simp [except_error_bind])
              | ok pair =>
                rw [hrec, except_ok_bind] at h
                cases h
                rcases ih pair.1 pair.2 hrec kv hmem with hms | ⟨raw, v, hw, hv, hkw⟩
                · exact Or.inl hms
                · exact Or.inr ⟨raw, v, hw, hv, by simp [hkw]⟩
            · exact absurd h (by simp)
          · cases hrec : collectFields ns rest with
            | error e => rw [hrec] at h; exact absurd h (by simp [except_error_bind])
            | ok pair =>
              rw [hrec, except_ok_bind] at h
              cases h
              rcases ih pair.1 pair.2 hrec kv hmem with hms | ⟨raw, v, hw, hv, hkw⟩
              · exact Or.inl (by simp [hms])
              · exact Or.inr ⟨raw, v, hw, hv, hkw⟩

/-- A successful materialization comes from a field loop with no missing
names, and the instance dictionary is the collected keyword list. -/
theorem materialize_ok_inv (anns : List (String × TypeShape)) (ns : List (String × PVal))
    (inst : List (String × PVal)) (h : materialize anns ns = Except.ok inst) :
    collectFields ns anns = Except.ok (inst, []) := by
  unfold materialize argparseNamespaceToDict at h
  cases hrec : collectFields ns anns with
  | error e => rw [hrec] at h; exact absurd h (by simp [except_error_bind])
  | ok pair =>
    obtain ⟨kwargs, missing⟩ := pair
    rw [hrec, except_ok_bind] at h
    cases missing with
    | cons a l => simp at h
    | nil =>
      simp at h
      rw [h]

/-- Association lookup finds a stored pair when the keys are unique. -/
theorem nsLookup_of_mem_nodup (d : List (String × PVal)) (n : String) (v : PVal)
    (hnd : (d.map (fun kv => kv.1)).Nodup) (hm : (n, v) ∈ d) :
    nsLookup d n = Option.some v := by
  induction d with
  | nil => simp at hm
  | cons e rest ih =>
    rcases List.mem_cons.mp hm with rfl | hmem
    · simp [nsLookup]
    · have hne : ¬(e.1 == n) = true := by
        intro hb
        have : e.1 = n := by simpa using hb
        have : n ∈ rest.map (fun kv => kv.1) :=
          List.mem_map.mpr ⟨(n, v), hmem, rfl⟩
        rw [List.map_cons] at hnd
        exact (List.nodup_cons.mp hnd).1 (by simpa [‹e.1 = n›] using this)
      simp only [nsLookup, hne, if_false]
      exact ih (List.nodup_cons.mp (by rw [List.map_cons] at hnd; exact hnd)).2 hmem

/-- Python dictionary equality is reflexive on dictionaries with unique
keys. -/
theorem instancesEqual_self (d : List (String × PVal))
    (hnd : (d.map (fun kv => kv.1)).Nodup) : instancesEqual d d = true := by
  unfold instancesEqual
  rw [Bool.and_self]
  rw [List.all_eq_true]
  intro kv hkv
  obtain ⟨n, v⟩ := kv
  rw [nsLookup_of_mem_nodup d n v hnd hkv]
  simpa using PVal.beq_refl v

/-- C8: reading each field of a materialized instance yields exactly the
validated value produced for that field's raw input, and two
materializations from equal raw inputs are structurally equal instances
(Python dictionary equality of their `__dict__`). -/
theorem materialize_roundtrip (anns : List (String × TypeShape)) (ns1 ns2 : List (String × PVal))
    (inst1 inst2 : List (String × PVal))
    (hnd : (anns.map (fun kv => kv.1)).Nodup)
    (hm1 : materialize anns ns1 = Except.ok inst1)
    (hm2 : materialize anns ns2 = Except.ok inst2)
    (heq : ns1 = ns2) :
    (∀ kv ∈ anns, ∃ raw v,
      (nsLookup ns1 kv.1 = Option.some raw ∨
        (nsLookup ns1 kv.1 = Option.none ∧ nsLookup ns1 (hyphenated kv.1) = Option.some raw)) ∧
      validate kv.2 raw = (v, Option.none) ∧
      nsLookup inst1 kv.1 = Option.some v) ∧
    instancesEqual inst1 inst2 = true := by
  subst heq
  have hinst : inst1 = inst2 := by
    have := hm1.symm.trans hm2
    exact Except.ok.inj this
  subst hinst
  have hcf := materialize_ok_inv anns ns1 inst1 hm1
  have hkeys := collectFields_keys_sublist anns ns1 inst1 [] hcf
  have hknd : (inst1.map (fun kv => kv.1)).Nodup := hnd.sublist hkeys
  constructor
  · intro kv hkv
    rcases collectFields_field_value anns ns1 inst1 [] hcf kv hkv with hms | ⟨raw, v, hw, hv, hmem⟩
    · simp at hms
    · exact ⟨raw, v, hw, hv, nsLookup_of_mem_nodup inst1 kv.1 v hknd hmem⟩
  · exact instancesEqual_self inst1 hknd

/-- Witness for C8 at a concrete record with one `str` field. -/
theorem materialize_roundtrip_witness :
    nsLookup [("alpha", PVal.str "v")] "alpha" = Option.some (PVal.str "v") ∧
    instancesEqual [("alpha", PVal.str "v")] [("alpha", PVal.str "v")] = true := by
  have hmat : materialize [("alpha", TypeShape.scalar ⟨"str", ["str", "object"]⟩)]
      [("alpha", PVal.str "v")] = Except.ok [("alpha", PVal.str "v")] := by
    have hres : typedArgsClassDict.contains "alpha" = false := by decide
    have hlook : nsLookup [("alpha", PVal.str "v")] "alpha" = Option.some (PVal.str "v") := by
      simp [nsLookup]
    have hval : validate (TypeShape.scalar ⟨"str", ["str", "object"]⟩) (PVal.str "v") =
        (PVal.str "v", Option.none) := by simp [validate, isinstance, typeOf]
    simp only [materialize, argparseNamespaceToDict, collectFields, hres, hlook, hval,
      Bool.false_eq_true, if_false, except_ok_bind]
    simp
  have h := materialize_roundtrip [("alpha", TypeShape.scalar ⟨"str", ["str", "object"]⟩)]
    [("alpha", PVal.str "v")] [("alpha", PVal.str "v")]
    [("alpha", PVal.str "v")] [("alpha", PVal.str "v")]
    (by simp) hmat hmat rfl
  refine ⟨?_, h.2⟩
  obtain ⟨raw, v, hw, hv, hread⟩ := h.1 ("alpha", TypeShape.scalar ⟨"str", ["str", "object"]⟩)
    (by simp)
  have hraw : raw = PVal.str "v" := by
    rcases hw with hw | ⟨hw, _⟩
    · simpa [nsLookup] using hw.symm
    · simp [nsLookup] at hw
  subst hraw
  have hv2 : v = PVal.str "v" := by
    have : validate (TypeShape.scalar ⟨"str", ["str", "object"]⟩) (PVal.str "v") =
        (PVal.str "v", Option.none) := by
      simp [validate, isinstance, typeOf]
    rw [this] at hv
    exact (Prod.mk.injEq _ _ _ _).mp hv.symm |>.1
  subst hv2
  exact hread


/-- Decomposition of a successful `List.findSome?`: the list splits at the
first element the function succeeds on. -/
theorem findSome_split {α β : Type} (f : α → Option β) (l : List α) (b : β)
    (h : l.findSome? f = Option.some b) :
    ∃ pre x post, l = pre ++ x :: post ∧ f x = Option.some b ∧
      ∀ y ∈ pre, f y = Option.none := by
  induction l with
  | nil => simp [List.findSome?] at h
  | cons a l ih =>
    cases hfa : f a with
    | some b2 =>
      have hb : b2 = b := by
        rw [List.findSome?] at h
        rw [hfa] at h
        exact Option.some.inj h
      exact ⟨[], a, l, by simp, by rw [hfa, hb], by simp⟩
    | none =>
      have h2 : l.findSome? f = Option.some b := by
        rw [List.findSome?] at h
        rw [hfa] at h
        exact h
      obtain ⟨pre, x, post, hl, hx, hpre⟩ := ih h2
      refine ⟨a :: pre, x, post, by simp [hl], hx, ?_⟩
      intro y hy
      rcases List.mem_cons.mp hy with rfl | hy2
      · exact hfa
      · exact hpre y hy2

/-- C4: whenever parse-time type determination selects a record type, it
does so for a destination path of maximal length among the matching ones:
the selected path resolves to that type, and every strictly longer
registered path fails to resolve (missing attribute or value path not in
the type mapping). -/
theorem determine_arg_type_longest (p : Parser) (ns : List (String × PVal)) (ty : String)
    (h : p.determineType ns = Option.some ty) :
    ∃ dp ∈ p.allLeafDestPaths,
      destPathResolve ns p.typeMapping dp = Option.some ty ∧
      ∀ dp2 ∈ p.allLeafDestPaths, dp.length < dp2.length →
        destPathResolve ns p.typeMapping dp2 = Option.none := by
  unfold Parser.determineType determineArgType at h
  obtain ⟨pre, x, post, hl, hx, hpre⟩ := findSome_split _ _ _ h
  have hsorted : List.Sorted byLenDesc (List.insertionSort byLenDesc p.allLeafDestPaths) :=
    List.sorted_insertionSort byLenDesc p.allLeafDestPaths
  have hperm : (List.insertionSort byLenDesc p.allLeafDestPaths).Perm p.allLeafDestPaths :=
    List.perm_insertionSort byLenDesc p.allLeafDestPaths
  refine ⟨x, hperm.mem_iff.mp (by rw [hl]; simp), hx, ?_⟩
  intro dp2 hdp2 hlen
  have hdp2s : dp2 ∈ List.insertionSort byLenDesc p.allLeafDestPaths := hperm.mem_iff.mpr hdp2
  rw [hl] at hdp2s hsorted
  rcases List.mem_append.mp hdp2s with hin | hin
  · exact hpre dp2 hin
  · rcases List.mem_cons.mp hin with rfl | hin2
    · omega
    · have hrel : byLenDesc x dp2 := by
        have hp : List.Pairwise byLenDesc (pre ++ x :: post) := hsorted
        have hxpost := (List.pairwise_append.mp hp).2.1
        exact (List.pairwise_cons.mp hxpost).1 dp2 hin2
      unfold byLenDesc at hrel
      omega

/-- Witness for C4 at a concrete parser: a non-required group with common
args (empty dest path) and a `foo` leaf (one-step dest path); the parsed
namespace selects the deeper `foo` leaf. -/
theorem determine_arg_type_longest_witness :
    ∃ dp ∈ ([[], ["<sub-command>"]] : List (List String)),
      destPathResolve [("<sub-command>", PVal.str "foo")]
        [(["foo"], "Foo"), ([], "Common")] dp = Option.some "Foo" ∧
      ∀ dp2 ∈ ([[], ["<sub-command>"]] : List (List String)),
        dp.length < dp2.length →
        destPathResolve [("<sub-command>", PVal.str "foo")]
          [(["foo"], "Foo"), ([], "Common")] dp2 = Option.none :=
  determine_arg_type_longest
    ⟨[(["foo"], "Foo"), ([], "Common")], [[], ["<sub-command>"]]⟩
    [("<sub-command>", PVal.str "foo")] "Foo"
    (by
      simp [Parser.determineType, determineArgType, List.insertionSort, List.orderedInsert,
        byLenDesc, destPathResolve, translateDestPath, nsLookup, typeMappingLookup,
        PVal.beqList, PVal.beq, List.findSome?, List.mapM, List.mapM.loop, List.find?,
        Option.map])


/-- Inserting a binding makes it retrievable. -/
theorem tmGet_insert_self (m : List (List String × String)) (k : List String) (v : String) :
    tmGet (tmInsert m k v) k = Option.some v := by
  induction m with
  | nil => simp [tmInsert, tmGet]
  | cons e rest ih =>
    by_cases he : e.1 = k
    · subst he
      simp [tmInsert, tmGet]
    · have h1 : (e.1 == k) = false := beq_eq_false_iff_ne.mpr he
      simp [tmInsert, tmGet, h1, ih]

/-- Inserting a binding leaves other keys untouched. -/
theorem tmGet_insert_ne (m : List (List String × String)) (k : List String) (v : String)
    (k0 : List String) (hk : k0 ≠ k) : tmGet (tmInsert m k v) k0 = tmGet m k0 := by
  have hbeq : (k == k0) = false := beq_eq_false_iff_ne.mpr (Ne.symm hk)
  induction m with
  | nil => simp [tmInsert, tmGet, hbeq]
  | cons e rest ih =>
    by_cases he : e.1 = k
    · subst he
      have h2 : (e.1 == k0) = false := beq_eq_false_iff_ne.mpr (Ne.symm hk)
      simp [tmInsert, tmGet, h2]
    · have h1 : (e.1 == k) = false := beq_eq_false_iff_ne.mpr he
      by_cases h0 : e.1 = k0
      · simp [tmInsert, tmGet, h1, h0, hk]
      · have h2 : (e.1 == k0) = false := beq_eq_false_iff_ne.mpr h0
        simp [tmInsert, tmGet, h1, h2, ih]

/-- Inserting a binding preserves the presence of every key. -/
theorem tmGet_insert_pres (m : List (List String × String)) (k : List String) (v : String)
    (k0 : List String) (h : (tmGet m k0).isSome = true) :
    (tmGet (tmInsert m k v) k0).isSome = true := by
  by_cases hk : k0 = k
  · subst hk
    rw [tmGet_insert_self]
    rfl
  · rw [tmGet_insert_ne m k v k0 hk]
    exact h

mutual
/-- The type-mapping traversal only adds bindings: present keys stay
present. -/
theorem traverseGTM_pres : (a : ArgsOrGroup) → ∀ path m m2 k,
    traverseGTM a path m = Except.ok m2 →
    (tmGet m k).isSome = true → (tmGet m2 k).isSome = true
  | .args ty => by
    intro path m m2 k h hk
    simp only [traverseGTM] at h
    split at h
    · exact absurd h (by simp)
    · cases h
      exact tmGet_insert_pres m path ty k hk
  | .group c req subs => by
    intro path m m2 k h hk
    unfold traverseGTM at h
    refine traverseDecls_pres subs path _ m2 k h ?_
    cases c with
    | none => exact hk
    | some cc =>
      by_cases hreq : req
      · simp only [hreq, Bool.not_true, Bool.false_eq_true, if_false]
        exact hk
      · rw [Bool.not_eq_true] at hreq
        simp only [hreq, Bool.not_false, if_true]
        exact tmGet_insert_pres m path cc k hk
termination_by a => (sizeOf a, 0)

/-- Declaration-loop version of `traverseGTM_pres`. -/
theorem traverseDecls_pres :
    (decls : List (String × Option (List String) × ArgsOrGroup)) → ∀ path m m2 k,
    traverseDecls decls path m = Except.ok m2 →
    (tmGet m k).isSome = true → (tmGet m2 k).isSome = true
  | [] => by
    intro path m m2 k h hk
    simp only [traverseDecls] at h
    cases h
    exact hk
  | (n, al, sub) :: rest => by
    intro path m m2 k h hk
    simp only [traverseDecls] at h
    cases h1 : traverseGTM sub (path ++ [n]) m with
    | error e => rw [h1] at h; exact absurd h (by simp [except_error_bind])
    | ok mA =>
      rw [h1, except_ok_bind] at h
      cases h2 : traverseAliases sub (al.getD []) path mA with
      | error e => rw [h2] at h; exact absurd h (by simp [except_error_bind])
      | ok mB =>
        rw [h2, except_ok_bind] at h
        exact traverseDecls_pres rest path mB m2 k h
          (traverseAliases_pres sub (al.getD []) path mA mB k h2
            (traverseGTM_pres sub (path ++ [n]) m mA k h1 hk))
termination_by decls => (sizeOf decls, 0)

/-- Alias-loop version of `traverseGTM_pres`. -/
theorem traverseAliases_pres : (sub : ArgsOrGroup) → (aliases : List String) → ∀ path m m2 k,
    traverseAliases sub aliases path m = Except.ok m2 →
    (tmGet m k).isSome = true → (tmGet m2 k).isSome = true
  | _, [] => by
    intro path m m2 k h hk
    simp only [traverseAliases] at h
    cases h
    exact hk
  | sub, a :: rest => by
    intro path m m2 k h hk
    simp only [traverseAliases] at h
    cases h1 : traverseGTM sub (path ++ [a]) m with
    | error e => rw [h1] at h; exact absurd h (by simp [except_error_bind])
    | ok mA =>
      rw [h1, except_ok_bind] at h
      exact traverseAliases_pres sub rest path mA m2 k h
        (traverseGTM_pres sub (path ++ [a]) m mA k h1 hk)
termination_by sub aliases => (sizeOf sub, aliases.length + 1)
end

/-- Traversing a leaf registers its value path. -/
theorem traverseGTM_args_ok (ty : String) (path : List String)
    (m m2 : List (List String × String))
    (h : traverseGTM (ArgsOrGroup.args ty) path m = Except.ok m2) :
    tmGet m2 path = Option.some ty := by
  simp only [traverseGTM] at h
  split at h
  · exact absurd h (by simp)
  · cases h
    exact tmGet_insert_self m path ty

/-- Traversing a leaf at an already-registered value path raises the
sub-parser conflict. -/
theorem traverseGTM_args_conflict (ty : String) (path : List String)
    (m : List (List String × String)) (h : (tmGet m path).isSome = true) :
    ∃ e, traverseGTM (ArgsOrGroup.args ty) path m = Except.error e := by
  simp only [traverseGTM]
  cases hg : tmGet m path with
  | none => rw [hg] at h; simp at h
  | some other => exact ⟨conflictMsg ty path other, rfl⟩

/-- The alias loop of a leaf registers every alias path. -/
theorem traverseAliases_args_registers (ty : String) (aliases : List String) :
    ∀ path m m2, traverseAliases (ArgsOrGroup.args ty) aliases path m = Except.ok m2 →
    ∀ x ∈ aliases, (tmGet m2 (path ++ [x])).isSome = true := by
  induction aliases with
  | nil =>
    intro path m m2 h x hx
    simp at hx
  | cons a rest ih =>
    intro path m m2 h x hx
    simp only [traverseAliases] at h
    cases h1 : traverseGTM (ArgsOrGroup.args ty) (path ++ [a]) m with
    | error e => rw [h1] at h; exact absurd h (by simp [except_error_bind])
    | ok mA =>
      rw [h1, except_ok_bind] at h
      rcases List.mem_cons.mp hx with rfl | hx2
      · have hA : (tmGet mA (path ++ [x])).isSome = true := by
          rw [traverseGTM_args_ok ty (path ++ [x]) m mA h1]
          rfl
        exact traverseAliases_pres (ArgsOrGroup.args ty) rest path mA m2 (path ++ [x]) h hA
      · exact ih path mA m2 h x hx2

/-- The alias loop of a leaf raises a conflict when some alias path is
already registered. -/
theorem traverseAliases_args_conflict (ty : String) (aliases : List String) (x : String)
    (hx : x ∈ aliases) : ∀ path m, (tmGet m (path ++ [x])).isSome = true →
    ∃ e, traverseAliases (ArgsOrGroup.args ty) aliases path m = Except.error e := by
  induction aliases with
  | nil => simp at hx
  | cons a rest ih =>
    intro path m h
    simp only [traverseAliases]
    rcases List.mem_cons.mp hx with rfl | hx2
    · obtain ⟨e, he⟩ := traverseGTM_args_conflict ty (path ++ [x]) m h
      exact ⟨e, by rw [he, except_error_bind]⟩
    · cases h1 : traverseGTM (ArgsOrGroup.args ty) (path ++ [a]) m with
      | error e => exact ⟨e, by rw [except_error_bind]⟩
      | ok mA =>
        have hk : (tmGet mA (path ++ [x])).isSome = true :=
          traverseGTM_pres (ArgsOrGroup.args ty) (path ++ [a]) m mA (path ++ [x]) h1 h
        obtain ⟨e, he⟩ := ih hx2 path mA hk
        exact ⟨e, by rw [except_ok_bind, he]⟩

/-- Processing a leaf declaration whose primary name or alias already has
a registered value path raises a conflict. -/
theorem traverseDecls_args_conflict (n : String) (al : Option (List String)) (ty : String)
    (rest : List (String × Option (List String) × ArgsOrGroup))
    (path : List String) (m : List (List String × String)) (x : String)
    (hx : x ∈ n :: al.getD []) (hk : (tmGet m (path ++ [x])).isSome = true) :
    ∃ e, traverseDecls ((n, al, ArgsOrGroup.args ty) :: rest) path m = Except.error e := by
  simp only [traverseDecls]
  rcases List.mem_cons.mp hx with rfl | hx2
  · obtain ⟨e, he⟩ := traverseGTM_args_conflict ty (path ++ [x]) m hk
    exact ⟨e, by rw [he, except_error_bind]⟩
  · cases h1 : traverseGTM (ArgsOrGroup.args ty) (path ++ [n]) m with
    | error e => exact ⟨e, by rw [except_error_bind]⟩
    | ok mA =>
      have hkA : (tmGet mA (path ++ [x])).isSome = true :=
        traverseGTM_pres (ArgsOrGroup.args ty) (path ++ [n]) m mA (path ++ [x]) h1 hk
      obtain ⟨e, he⟩ := traverseAliases_args_conflict ty (al.getD []) x hx2 path mA hkA
      exact ⟨e, by rw [except_ok_bind, he, except_error_bind]⟩

/-- The declaration loop splits over list append. -/
theorem traverseDecls_append (l1 l2 : List (String × Option (List String) × ArgsOrGroup))
    (path : List String) (m : List (List String × String)) :
    traverseDecls (l1 ++ l2) path m =
      match traverseDecls l1 path m with
      | Except.ok m1 => traverseDecls l2 path m1
      | Except.error e => Except.error e := by
  induction l1 generalizing m with
  | nil => simp only [List.nil_append, traverseDecls]
  | cons d rest ih =>
    obtain ⟨n, al, sub⟩ := d
    simp only [List.cons_append, traverseDecls]
    cases h1 : traverseGTM sub (path ++ [n]) m with
    | error e => simp [except_error_bind]
    | ok mA =>
      simp only [except_ok_bind]
      cases h2 : traverseAliases sub (al.getD []) path mA with
      | error e => simp [except_error_bind]
      | ok mB =>
        simp only [except_ok_bind]
        exact ih mB

/-- C5: a sub-command group in which one sibling leaf's name or alias
collides with a later sibling leaf's name or alias (both registering the
same value path) makes `Parser` construction fail with a structural
conflict error: the type-mapping traversal aborts inside `Parser.make`,
before any command line could be parsed. -/
theorem subparser_conflict_detected (c : Option String) (req : Bool)
    (pre mid post : List (String × Option (List String) × ArgsOrGroup))
    (n1 n2 ty1 ty2 : String) (al1 al2 : Option (List String)) (x : String)
    (hx1 : x ∈ n1 :: al1.getD []) (hx2 : x ∈ n2 :: al2.getD []) :
    ∃ e, Parser.make (ArgsOrGroup.group c req
      (pre ++ (n1, al1, ArgsOrGroup.args ty1) ::
        (mid ++ (n2, al2, ArgsOrGroup.args ty2) :: post))) = Except.error e := by
  suffices h : ∃ e, traverseGTM (ArgsOrGroup.group c req
      (pre ++ (n1, al1, ArgsOrGroup.args ty1) ::
        (mid ++ (n2, al2, ArgsOrGroup.args ty2) :: post))) [] [] = Except.error e by
    obtain ⟨e, he⟩ := h
    exact ⟨e, by unfold Parser.make; rw [he, except_error_bind]⟩
  unfold traverseGTM
  rw [traverseDecls_append]
  cases hpre : traverseDecls pre [] _ with
  | error e => exact ⟨e, rfl⟩
  | ok mA =>
    simp only [traverseDecls]
    cases h1 : traverseGTM (ArgsOrGroup.args ty1) ([] ++ [n1]) mA with
    | error e => exact ⟨e, by rw [except_error_bind]⟩
    | ok mB =>
      rw [except_ok_bind]
      cases h2 : traverseAliases (ArgsOrGroup.args ty1) (al1.getD []) [] mB with
      | error e => exact ⟨e, by rw [except_error_bind]⟩
      | ok mC =>
        rw [except_ok_bind]
        have hkey : (tmGet mC ([] ++ [x])).isSome = true := by
          rcases List.mem_cons.mp hx1 with rfl | hal
          · have hB : (tmGet mB ([] ++ [x])).isSome = true := by
              rw [traverseGTM_args_ok ty1 ([] ++ [x]) mA mB h1]
              rfl
            exact traverseAliases_pres (ArgsOrGroup.args ty1) (al1.getD []) [] mB mC
              ([] ++ [x]) h2 hB
          · exact traverseAliases_args_registers ty1 (al1.getD []) [] mB mC h2 x hal
        rw [traverseDecls_append]
        cases hmid : traverseDecls mid [] mC with
        | error e => exact ⟨e, rfl⟩
        | ok mD =>
          have hkeyD : (tmGet mD ([] ++ [x])).isSome = true :=
            traverseDecls_pres mid [] mC mD ([] ++ [x]) hmid hkey
          obtain ⟨e, he⟩ := traverseDecls_args_conflict n2 al2 ty2 post [] mD x hx2 hkeyD
          exact ⟨e, he⟩

/-- Witness for C5 at a concrete tree: sibling leaves `foo` (alias `f`)
and `f` collide on the value path `f`. -/
theorem subparser_conflict_detected_witness :
    ∃ e, Parser.make (ArgsOrGroup.group Option.none true
      [("foo", Option.some ["f"], ArgsOrGroup.args "Foo"),
       ("f", Option.none, ArgsOrGroup.args "Bar")]) = Except.error e := by
  have h := subparser_conflict_detected Option.none true [] [] []
    "foo" "f" "Foo" "Bar" (Option.some ["f"]) Option.none "f"
    (by simp) (by simp)
  simpa using h

end TypedArgparse


